import Mathlib

/-!
A verification development for the `organize-cli` repository.

The Python source (`organize/core.py`, `organize/restore.py`,
`organize/cli.py`, `organize/filetypes.py`) is shallow-embedded below:

* a filesystem is an explicit value (`FS`): an association list of file
  paths to file data plus a list of existing directories;
* file byte content is an opaque `Nat`; the SHA-256 digest of a file is
  modelled as its content itself (byte-identical files get equal digests,
  differing files get differing digests, which is exactly the property the
  engine relies on);
* `os.walk` is modelled lazily, as in CPython: a directory's entries are
  listed at the moment the walk reaches that directory, on the filesystem
  state current at that moment; subdirectory snapshots are taken when the
  parent is scanned;
* `shutil.move` is modelled with its POSIX `os.rename` behaviour: moving
  onto an existing file path overwrites it, moving onto an existing
  directory path moves the source inside that directory;
* exceptions become `Except` values / outcome constructors; per-file
  read-permission state is carried on each file (`Access`), which is the
  failure source the fingerprinting claims are about.  Directory
  permissions and ledger-write failures are not modelled; no claim
  depends on them.
-/

namespace OrganizeCLI

/-- An absolute path, as its list of components. -/
abbrev Path := List String

/-! ### Python string helpers used by the source -/

/-- `str.lower` for the ASCII range, as applied by the source to
file extensions (`ext.lower()` in `core.py`). -/
def lowerChar (c : Char) : Char :=
  if 'A' ≤ c ∧ c ≤ 'Z' then Char.ofNat (c.toNat + 32) else c

/-- `str.lower` on a whole string. -/
def lowerStr (s : String) : String := ⟨s.toList.map lowerChar⟩

/-- Position of the last `'.'` in a character list (accumulator-passing). -/
def lastDotPosAux : List Char → Nat → Option Nat → Option Nat
  | [], _, acc => acc
  | c :: rest, i, acc => lastDotPosAux rest (i + 1) (if c = '.' then some i else acc)

/-- `os.path.splitext` on a base name: split at the last dot, except that a
name whose characters before that dot are all dots (e.g. `".gitignore"`)
has no extension. -/
def splitext (s : String) : String × String :=
  match lastDotPosAux s.toList 0 none with
  | none => (s, "")
  | some i =>
    if (s.toList.take i).all (fun c => c = '.') then (s, "")
    else (⟨s.toList.take i⟩, ⟨s.toList.drop i⟩)

/-- Decimal rendering of a `Nat` (Python's `str(i)` inside the f-string of
`safe_move`), structurally recursive on a fuel argument so that it
evaluates by kernel reduction. -/
def natDigitsAux : Nat → Nat → List Char
  | 0, _ => []
  | fuel + 1, n =>
    if n < 10 then [Nat.digitChar n]
    else natDigitsAux fuel (n / 10) ++ [Nat.digitChar (n % 10)]

/-- Decimal rendering of a `Nat` as a string. -/
def natStr (n : Nat) : String := ⟨natDigitsAux (n + 1) n⟩

/-! ### The classifier (`filetypes.py` and `category` in `core.py`) -/

/-- The static extension table of `filetypes.py`, in its insertion order
(Python dict iteration order). -/
def FILE_TYPES : List (String × List String) :=
  [ ("Audio",
      [".mp3", ".wav", ".aac", ".flac", ".m4a", ".ogg", ".wma", ".aiff", ".alac", ".opus"]),
    ("Video",
      [".mp4", ".mkv", ".avi", ".mov", ".wmv", ".flv", ".webm", ".m4v", ".3gp", ".mpeg", ".mpg"]),
    ("Images",
      [".jpg", ".jpeg", ".png", ".gif", ".bmp", ".webp", ".tiff", ".svg", ".ico", ".heic",
       ".raw", ".cr2", ".nef"]),
    ("Documents",
      [".pdf", ".doc", ".docx", ".txt", ".rtf", ".odt", ".md", ".epub"]),
    ("Spreadsheets",
      [".xls", ".xlsx", ".csv", ".ods", ".tsv"]),
    ("Presentations",
      [".ppt", ".pptx", ".odp", ".key"]),
    ("Code",
      [".py", ".java", ".c", ".cpp", ".js", ".ts", ".html", ".css", ".json", ".xml",
       ".sh", ".php", ".go", ".rs", ".kt", ".swift", ".rb", ".sql", ".yaml", ".yml"]),
    ("Archives",
      [".zip", ".rar", ".7z", ".tar", ".gz", ".bz2", ".xz", ".iso"]),
    ("Executables",
      [".exe", ".msi", ".deb", ".rpm", ".appimage", ".dmg", ".pkg", ".bin", ".run"]),
    ("Fonts",
      [".ttf", ".otf", ".woff", ".woff2", ".eot"]) ]

/-- The `for k, v in FILE_TYPES.items(): if ext in v: return k` loop. -/
def categoryAux : List (String × List String) → String → String
  | [], _ => "Others"
  | (k, v) :: rest, ext => if ext ∈ v then k else categoryAux rest ext

/-- `category` from `core.py`: lower-case the extension, return the first
matching table category, `"Others"` when no category matches. -/
def category (ext : String) : String := categoryAux FILE_TYPES (lowerStr ext)

/-- Every extension appearing in the table. -/
def allExtensions : List String := (FILE_TYPES.map Prod.snd).flatten

lemma categoryAux_not_mem (ext : String) :
    ∀ l : List (String × List String), ext ∉ (l.map Prod.snd).flatten →
      categoryAux l ext = "Others" := by
  intro l
  induction l with
  | nil => intro _; rfl
  | cons hd tl ih =>
    intro h
    simp only [List.map_cons, List.flatten_cons, List.mem_append, not_or] at h
    simpa only [categoryAux, if_neg h.1] using ih h.2

/-- **C6.** Classifier totality and case-insensitivity: `category` is a
total pure function; any two extension strings with the same
lower-casing (in particular, extensions differing only in letter case)
get the same category; an extension whose lower-casing is not in the
table gets the fallback `"Others"` (in particular the empty string
does); `.PDF`, `.Pdf` and `.pdf` all resolve to `"Documents"`. -/
theorem category_total_case_insensitive :
    (∀ s t : String, lowerStr s = lowerStr t → category s = category t) ∧
    (∀ s : String, lowerStr s ∉ allExtensions → category s = "Others") ∧
    category "" = "Others" ∧
    category ".PDF" = "Documents" ∧ category ".Pdf" = "Documents" ∧
    category ".pdf" = "Documents" := by
  refine ⟨fun s t h => by simp only [category, h], fun s h => ?_, by decide, by decide, by decide,
    by decide⟩
  exact categoryAux_not_mem _ FILE_TYPES h

/-- Witness for C6 at concrete inputs: `.PDF` vs `.pdf`, and a
concrete unknown extension. -/
theorem category_total_case_insensitive_witness :
    category ".PDF" = category ".pdf" ∧ category ".xyz123" = "Others" :=
  ⟨category_total_case_insensitive.1 ".PDF" ".pdf" (by decide),
   category_total_case_insensitive.2.1 ".xyz123" (by decide)⟩

/-! ### Filesystem model -/

/-- Per-file read-access state: readable, `os.access(_, R_OK)` false
(permission denied), or a read that fails with an I/O error. -/
inductive Access
  | ok
  | noRead
  | ioErr
deriving DecidableEq, Repr

/-- One element of the `"moves"` array of the ledger JSON: either an object
with string fields `"from"` (here `orig`) and `"to"` (here `moved`), or an
object missing one of those keys. -/
inductive Entry
  | move (orig moved : Path)
  | malformed
deriving DecidableEq, Repr

/-- The shape of a file content that parses as JSON, as far as `restore`
inspects it: either it lacks a `"moves"` list, or it has one. -/
inductive LedgerShape
  | noMoves
  | moves (es : List Entry)
deriving DecidableEq, Repr

/-- File content: opaque bytes (identified up to byte equality, which is
all the engine ever observes through SHA-256), or content that parses as
a JSON object. -/
inductive FContent
  | bytes (data : Nat)
  | ledgerJson (l : LedgerShape)
deriving DecidableEq, Repr

/-- A file: its content and its read-access state. -/
structure FileData where
  content : FContent
  access : Access
deriving DecidableEq, Repr

/-- A filesystem: files keyed by absolute path (association-list order is
the directory listing order the OS reports), plus the set of existing
directories. -/
structure FS where
  files : List (Path × FileData)
  dirs : List Path
deriving DecidableEq, Repr

/-- First entry at a path in an association list. -/
def findFile : List (Path × FileData) → Path → Option FileData
  | [], _ => none
  | (q, d) :: rest, p => if q = p then some d else findFile rest p

/-- Remove every entry at a path. -/
def eraseEntry : List (Path × FileData) → Path → List (Path × FileData)
  | [], _ => []
  | (q, d) :: rest, p => if q = p then eraseEntry rest p else (q, d) :: eraseEntry rest p

/-- Write (create or overwrite) the file at a path; the entry is appended
at the end of the listing. -/
def setFile (files : List (Path × FileData)) (p : Path) (d : FileData) :
    List (Path × FileData) :=
  eraseEntry files p ++ [(p, d)]

def FS.lookup (fs : FS) (p : Path) : Option FileData := findFile fs.files p

def FS.removeFile (fs : FS) (p : Path) : FS := { fs with files := eraseEntry fs.files p }

def FS.writeFile (fs : FS) (p : Path) (d : FileData) : FS :=
  { fs with files := setFile fs.files p d }

/-- `os.path.exists`: true for files and for directories. -/
def pathExists (fs : FS) (p : Path) : Bool := (fs.lookup p).isSome || decide (p ∈ fs.dirs)

/-- The `OSError` directory creation raises: `exist_ok=True` only
tolerates an existing *directory*; a target that exists as a regular
file raises `FileExistsError` (an `OSError`). -/
inductive OsError
  | fileExists
deriving DecidableEq, Repr

/-- `os.makedirs(d, exist_ok=True)`: succeed when `d` is already a
directory, raise `FileExistsError` when `d` exists as a regular file,
otherwise create the one directory `d` (its parents play no role: the
walk only ever lists directories it was told exist, and the engine only
creates direct children of the target folder). -/
def makedirs (fs : FS) (d : Path) : Except OsError FS :=
  if d ∈ fs.dirs then .ok fs
  else if (fs.lookup d).isSome then .error .fileExists
  else .ok { fs with dirs := fs.dirs ++ [d] }

/-- `os.path.basename`. -/
def basename (p : Path) : String := p.getLastD ""

/-- Whether `pre` is an initial segment of `p`. -/
def pathBeginsWith : Path → Path → Bool
  | [], _ => true
  | _ :: _, [] => false
  | a :: pre, b :: p => decide (a = b) && pathBeginsWith pre p

/-- Re-root a path: replace the initial segment `src` by `dst`. -/
def replaceRoot (src dst p : Path) : Path :=
  if pathBeginsWith src p then dst ++ p.drop src.length else p

/-- `shutil.move(src, dst)` with POSIX `os.rename` semantics: when `dst`
is an existing directory the source is moved inside it under its base
name; moving a file onto an existing file path overwrites it; moving a
directory re-roots everything beneath it. -/
def shutilMove (fs : FS) (src dst : Path) : FS :=
  let dst' := if dst ∈ fs.dirs then dst ++ [basename src] else dst
  match fs.lookup src with
  | some d => (fs.removeFile src).writeFile dst' d
  | none =>
    if src ∈ fs.dirs then
      { files := fs.files.map (fun e => (replaceRoot src dst' e.1, e.2)),
        dirs := fs.dirs.map (replaceRoot src dst') }
    else fs

/-- The fixed ledger file name of `core.py`. -/
def LOG_FILE : String := ".organize_log.json"

/-! ### The content fingerprinter (`sha256` in `core.py`) -/

/-- The three failure modes `sha256` raises: `FileNotFoundError`,
`PermissionError`, `IOError`. -/
inductive HashError
  | fileNotFound
  | permissionDenied
  | ioError
deriving DecidableEq, Repr

/-- `sha256` from `core.py`: missing path raises `FileNotFoundError`,
unreadable file raises `PermissionError`, a failing read (also opening a
directory) raises `IOError`.  The digest of a readable file is its byte
content itself: byte-identical files always fingerprint equal, and the
digest is the engine's sole duplicate test. -/
def sha256 (fs : FS) (p : Path) : Except HashError FContent :=
  if pathExists fs p = false then .error .fileNotFound
  else
    match fs.lookup p with
    | some d =>
      if d.access = .noRead then .error .permissionDenied
      else if d.access = .ioErr then .error .ioError
      else .ok d.content
    | none => .error .ioError

/-! ### The conflict-safe relocator (`safe_move` in `core.py`) -/

/-- The `i`-th candidate name tried by `safe_move`'s loop: the original
base name first, then `base(i)ext` for `i = 1, 2, …`. -/
def cand (base ext : String) : Nat → String
  | 0 => base ++ ext
  | i + 1 => base ++ "(" ++ natStr (i + 1) ++ ")" ++ ext

/-- The `while os.path.exists(new)` loop of `safe_move`: return the first
candidate name not existing in the destination directory.  The fuel is
always called with more iterations than there are paths in the
filesystem, which `findFree_free` below shows is enough. -/
def findFree (fs : FS) (destDir : Path) (base ext : String) : Nat → Nat → String
  | 0, i => cand base ext i
  | fuel + 1, i =>
    if pathExists fs (destDir ++ [cand base ext i]) then
      findFree fs destDir base ext fuel (i + 1)
    else cand base ext i

/-- Failure modes of `safe_move` reachable in the model:
`FileNotFoundError` on a missing source, and the `OSError` re-raised
when the destination directory cannot be created (`FileExistsError`
from `os.makedirs` when the destination exists as a regular file). -/
inductive MoveError
  | srcNotFound
  | destCreateFailed
deriving DecidableEq, Repr

/-- `safe_move` from `core.py`: raise if the source is gone, create the
destination directory (re-raising its `OSError` on failure), pick the
first conflict-free name, move, and return the destination path
actually used. -/
def safe_move (fs : FS) (src destDir : Path) : Except MoveError (FS × Path) :=
  if pathExists fs src = false then .error .srcNotFound
  else
    match makedirs fs destDir with
    | .error _ => .error .destCreateFailed
    | .ok fs1 =>
      let be := splitext (basename src)
      let fuel := fs1.files.length + fs1.dirs.length + 1
      let name := findFree fs1 destDir be.1 be.2 fuel 0
      let newP := destDir ++ [name]
      .ok (shutilMove fs1 src newP, newP)

/-! ### Facts about the decimal rendering and the candidate names -/

lemma stringDataEq {a b : String} (h : a.data = b.data) : a = b := by
  cases a; cases b; simp only at h; rw [h]

lemma natDigitsAux_ne_nil : ∀ fuel n, 0 < fuel → natDigitsAux fuel n ≠ [] := by
  intro fuel n h
  match fuel with
  | f + 1 =>
    simp only [natDigitsAux]
    split
    · simp
    · simp

lemma digitChar_inj : ∀ m, m < 10 → ∀ n, n < 10 → Nat.digitChar m = Nat.digitChar n → m = n := by
  decide

lemma natDigitsAux_inj :
    ∀ f₁, ∀ m, m < f₁ → ∀ f₂, ∀ n, n < f₂ →
      natDigitsAux f₁ m = natDigitsAux f₂ n → m = n := by
  intro f₁
  induction f₁ with
  | zero => intro m hm; omega
  | succ a ih =>
    intro m hm f₂ n hn h
    match f₂, hn with
    | b + 1, hn =>
      by_cases h10m : m < 10 <;> by_cases h10n : n < 10
      · simp only [natDigitsAux, if_pos h10m, if_pos h10n, List.cons.injEq] at h
        exact digitChar_inj m h10m n h10n h.1
      · exfalso
        simp only [natDigitsAux, if_pos h10m, if_neg h10n] at h
        have hlen := congrArg List.length h
        simp only [List.length_singleton, List.length_append] at hlen
        have hne := natDigitsAux_ne_nil b (n / 10) (by omega)
        have : (natDigitsAux b (n / 10)).length ≠ 0 := fun h0 => hne (List.eq_nil_of_length_eq_zero h0)
        omega
      · exfalso
        simp only [natDigitsAux, if_neg h10m, if_pos h10n] at h
        have hlen := congrArg List.length h
        simp only [List.length_singleton, List.length_append] at hlen
        have hne := natDigitsAux_ne_nil a (m / 10) (by omega)
        have : (natDigitsAux a (m / 10)).length ≠ 0 := fun h0 => hne (List.eq_nil_of_length_eq_zero h0)
        omega
      · simp only [natDigitsAux, if_neg h10m, if_neg h10n] at h
        have hdrop := congrArg List.dropLast h
        simp only [List.dropLast_concat] at hdrop
        have hlast := congrArg (List.getLastD · ' ') h
        simp only [List.getLastD_concat] at hlast
        have hmod : m % 10 = n % 10 :=
          digitChar_inj (m % 10) (Nat.mod_lt m (by omega)) (n % 10) (Nat.mod_lt n (by omega)) hlast
        have hdiv : m / 10 = n / 10 :=
          ih (m / 10) (by omega) b (n / 10) (by omega) hdrop
        omega

lemma natStr_inj {m n : Nat} (h : natStr m = natStr n) : m = n := by
  have hd : natDigitsAux (m + 1) m = natDigitsAux (n + 1) n := congrArg String.data h
  exact natDigitsAux_inj (m + 1) m (Nat.lt_succ_self m) (n + 1) n (Nat.lt_succ_self n) hd

lemma natStr_length_pos (n : Nat) : 0 < (natStr n).length := by
  have hne := natDigitsAux_ne_nil (n + 1) n (Nat.succ_pos n)
  have : (natStr n).length = (natDigitsAux (n + 1) n).length := rfl
  rw [this]
  exact List.length_pos.mpr hne

lemma cand_inj (base ext : String) : ∀ i j, cand base ext i = cand base ext j → i = j := by
  have hzero : ∀ j, cand base ext 0 ≠ cand base ext (j + 1) := by
    intro j h
    have hlen := congrArg String.length h
    simp only [cand, String.length_append] at hlen
    have hp := natStr_length_pos (j + 1)
    have h1 : "(".length = 1 := rfl
    have h2 : ")".length = 1 := rfl
    omega
  intro i j h
  match i, j with
  | 0, 0 => rfl
  | 0, j + 1 => exact absurd h (hzero j)
  | i + 1, 0 => exact absurd h.symm (hzero i)
  | i + 1, j + 1 =>
    have hd := congrArg String.data h
    simp only [cand, String.data_append, List.append_assoc] at hd
    have hd2 := List.append_cancel_left hd
    have hd3 := List.append_cancel_left hd2
    have hd4 := List.append_cancel_right hd3
    have := natStr_inj (stringDataEq hd4)
    omega

lemma splitext_recombine (s : String) : (splitext s).1 ++ (splitext s).2 = s := by
  unfold splitext
  cases h : lastDotPosAux s.toList 0 none with
  | none => simp
  | some i =>
    dsimp only
    by_cases hall : ((s.toList.take i).all fun c => decide (c = '.')) = true
    · rw [if_pos hall]
      simp
    · rw [if_neg hall]
      show (⟨s.toList.take i⟩ : String) ++ (⟨s.toList.drop i⟩ : String) = s
      have hmk : (⟨s.toList.take i⟩ : String) ++ (⟨s.toList.drop i⟩ : String) =
          ⟨s.toList.take i ++ s.toList.drop i⟩ := rfl
      rw [hmk, List.take_append_drop]
      rfl

/-! ### Correctness of the conflict-name search -/

lemma append_singleton_ne (l : Path) (a : String) : l ++ [a] ≠ l := by
  intro h
  have := congrArg List.length h
  simp at this

lemma findFile_isSome_mem :
    ∀ (files : List (Path × FileData)) (p : Path), (findFile files p).isSome →
      p ∈ files.map Prod.fst := by
  intro files p
  induction files with
  | nil => intro h; simp [findFile] at h
  | cons hd tl ih =>
    intro h
    obtain ⟨q, d⟩ := hd
    by_cases hq : q = p
    · subst hq
      exact List.mem_cons_self _ _
    · simp only [findFile, if_neg hq] at h
      exact List.mem_cons_of_mem _ (ih h)

lemma pathExists_mem {fs : FS} {p : Path} (h : pathExists fs p = true) :
    p ∈ fs.files.map Prod.fst ++ fs.dirs := by
  simp only [pathExists, Bool.or_eq_true, decide_eq_true_eq] at h
  rcases h with h | h
  · exact List.mem_append_left _ (findFile_isSome_mem _ _ h)
  · exact List.mem_append_right _ h

lemma nodup_subset_length {α : Type} [DecidableEq α] {l l' : List α}
    (h : l.Nodup) (h2 : l ⊆ l') : l.length ≤ l'.length :=
  calc l.length = l.toFinset.card := (List.toFinset_card_of_nodup h).symm
    _ ≤ l'.toFinset.card := Finset.card_le_card (fun x hx => by
        simp only [List.mem_toFinset] at *
        exact h2 hx)
    _ ≤ l'.length := l'.toFinset_card_le

lemma exists_free (fs : FS) (destDir : Path) (base ext : String) :
    ∃ j, j < fs.files.length + fs.dirs.length + 1 ∧
      pathExists fs (destDir ++ [cand base ext j]) = false := by
  by_contra hall
  push_neg at hall
  have htrue : ∀ j, j < fs.files.length + fs.dirs.length + 1 →
      pathExists fs (destDir ++ [cand base ext j]) = true := by
    intro j hj
    have := hall j hj
    cases hpe : pathExists fs (destDir ++ [cand base ext j])
    · exact absurd hpe this
    · rfl
  set F := fs.files.length + fs.dirs.length + 1 with hF
  have hnd : ((List.range F).map (fun j => destDir ++ [cand base ext j])).Nodup := by
    refine List.Nodup.map ?_ (List.nodup_range F)
    intro a b hab
    have := List.append_cancel_left hab
    simp only [List.cons.injEq, and_true] at this
    exact cand_inj base ext a b this
  have hsub : ((List.range F).map (fun j => destDir ++ [cand base ext j])) ⊆
      fs.files.map Prod.fst ++ fs.dirs := by
    intro p hp
    simp only [List.mem_map, List.mem_range] at hp
    obtain ⟨j, hj, rfl⟩ := hp
    exact pathExists_mem (htrue j hj)
  have hle := nodup_subset_length hnd hsub
  simp only [List.length_map, List.length_range, List.length_append] at hle
  omega

lemma findFree_spec (fs : FS) (destDir : Path) (base ext : String) :
    ∀ fuel i,
      (∃ j, i ≤ j ∧ j < i + fuel ∧ pathExists fs (destDir ++ [cand base ext j]) = false) →
      ∃ k, i ≤ k ∧ findFree fs destDir base ext fuel i = cand base ext k ∧
        pathExists fs (destDir ++ [cand base ext k]) = false ∧
        ∀ j, i ≤ j → j < k → pathExists fs (destDir ++ [cand base ext j]) = true := by
  intro fuel
  induction fuel with
  | zero =>
    rintro i ⟨j, h1, h2, _⟩
    omega
  | succ f ih =>
    intro i hex
    by_cases hc : pathExists fs (destDir ++ [cand base ext i]) = true
    · obtain ⟨j, hj1, hj2, hj3⟩ := hex
      have hij : i ≠ j := by
        intro e
        rw [e, hj3] at hc
        exact Bool.false_ne_true hc
      obtain ⟨k, hk1, hk2, hk3, hk4⟩ := ih (i + 1) ⟨j, by omega, by omega, hj3⟩
      refine ⟨k, by omega, ?_, hk3, ?_⟩
      · simp only [findFree, hc, if_true]
        exact hk2
      · intro j' h1 h2
        rcases Nat.eq_or_lt_of_le h1 with he | hlt
        · rw [← he]; exact hc
        · exact hk4 j' hlt h2
    · have hfalse : pathExists fs (destDir ++ [cand base ext i]) = false := by
        cases hpe : pathExists fs (destDir ++ [cand base ext i])
        · rfl
        · exact absurd hpe hc
      refine ⟨i, Nat.le_refl i, ?_, hfalse, fun j h1 h2 => absurd (Nat.lt_of_le_of_lt h1 h2) (Nat.lt_irrefl i)⟩
      simp only [findFree, hfalse, Bool.false_eq_true, if_false]

lemma makedirs_ok_files {fs fs1 : FS} {d : Path} (h : makedirs fs d = .ok fs1) :
    fs1.files = fs.files := by
  unfold makedirs at h
  split at h
  · rw [← Except.ok.inj h]
  · split at h
    · exact Except.noConfusion h
    · rw [← Except.ok.inj h]

lemma makedirs_ok_lookup {fs fs1 : FS} {d : Path} (h : makedirs fs d = .ok fs1) (p : Path) :
    fs1.lookup p = fs.lookup p := by
  unfold FS.lookup
  rw [makedirs_ok_files h]

lemma makedirs_ok_dirs {fs fs1 : FS} {d : Path} (h : makedirs fs d = .ok fs1) :
    fs1.dirs = fs.dirs ∨ fs1.dirs = fs.dirs ++ [d] := by
  unfold makedirs at h
  split at h
  · exact Or.inl (by rw [← Except.ok.inj h])
  · split at h
    · exact Except.noConfusion h
    · exact Or.inr (by rw [← Except.ok.inj h])

lemma makedirs_isOk {fs : FS} {d : Path} (h : fs.lookup d = none ∨ d ∈ fs.dirs) :
    ∃ fs1, makedirs fs d = .ok fs1 := by
  unfold makedirs
  by_cases hm : d ∈ fs.dirs
  · rw [if_pos hm]
    exact ⟨fs, rfl⟩
  · rw [if_neg hm]
    rcases h with h | h
    · rw [h]
      exact ⟨_, rfl⟩
    · exact absurd h hm

lemma pathExists_makedirs_append {fs fs1 : FS} {d : Path} (h : makedirs fs d = .ok fs1)
    (a : String) : pathExists fs1 (d ++ [a]) = pathExists fs (d ++ [a]) := by
  unfold pathExists
  rw [makedirs_ok_lookup h]
  rcases makedirs_ok_dirs h with h2 | h2
  · rw [h2]
  · rw [h2]
    have hiff : (d ++ [a] ∈ fs.dirs ++ [d]) ↔ (d ++ [a] ∈ fs.dirs) := by
      simp [List.mem_append, append_singleton_ne d a]
    rw [decide_eq_decide.mpr hiff]

lemma findFile_append_none {l1 : List (Path × FileData)} (l2 : List (Path × FileData))
    {p : Path} (h : findFile l1 p = none) : findFile (l1 ++ l2) p = findFile l2 p := by
  induction l1 with
  | nil => rfl
  | cons hd tl ih =>
    obtain ⟨q, d⟩ := hd
    by_cases hq : q = p
    · simp [findFile, if_pos hq] at h
    · simp only [findFile, if_neg hq] at h ⊢
      exact ih h

lemma findFile_append_some {l1 : List (Path × FileData)} (l2 : List (Path × FileData))
    {p : Path} {d : FileData} (h : findFile l1 p = some d) :
    findFile (l1 ++ l2) p = some d := by
  induction l1 with
  | nil => simp [findFile] at h
  | cons hd tl ih =>
    obtain ⟨q, e⟩ := hd
    by_cases hq : q = p
    · simp only [findFile, if_pos hq] at h ⊢
      exact h
    · simp only [findFile, if_neg hq] at h ⊢
      exact ih h

lemma findFile_eraseEntry_self (l : List (Path × FileData)) (p : Path) :
    findFile (eraseEntry l p) p = none := by
  induction l with
  | nil => rfl
  | cons hd tl ih =>
    obtain ⟨q, d⟩ := hd
    by_cases hq : q = p
    · simp only [eraseEntry, if_pos hq]
      exact ih
    · simp only [eraseEntry, if_neg hq, findFile, if_neg hq]
      exact ih

lemma findFile_eraseEntry_ne (l : List (Path × FileData)) {p q : Path} (h : q ≠ p) :
    findFile (eraseEntry l p) q = findFile l q := by
  induction l with
  | nil => rfl
  | cons hd tl ih =>
    obtain ⟨r, d⟩ := hd
    by_cases hr : r = p
    · rw [eraseEntry, if_pos hr, findFile, if_neg (fun e => h (e.symm.trans hr))]
      exact ih
    · rw [eraseEntry, if_neg hr]
      by_cases hrq : r = q
      · rw [findFile, if_pos hrq, findFile, if_pos hrq]
      · rw [findFile, if_neg hrq, findFile, if_neg hrq]
        exact ih

lemma pathExists_of_lookup {fs : FS} {p : Path} (h : (fs.lookup p).isSome) :
    pathExists fs p = true := by
  simp [pathExists, h]

lemma not_mem_dirs_of_not_exists {fs : FS} {p : Path} (h : pathExists fs p = false) :
    p ∉ fs.dirs := by
  simp only [pathExists, Bool.or_eq_false_iff, decide_eq_false_iff_not] at h
  exact h.2

lemma lookup_eq_none_of_not_exists {fs : FS} {p : Path} (h : pathExists fs p = false) :
    fs.lookup p = none := by
  simp only [pathExists, Bool.or_eq_false_iff] at h
  have h1 := h.1
  cases hl : fs.lookup p with
  | none => rfl
  | some d =>
    rw [hl] at h1
    simp at h1

lemma safe_move_eq {fs fs1 : FS} {src : Path} (destDir : Path)
    (h : pathExists fs src = true) (hmk : makedirs fs destDir = .ok fs1) :
    safe_move fs src destDir =
      .ok (shutilMove fs1 src
             (destDir ++ [findFree fs1 destDir
                (splitext (basename src)).1 (splitext (basename src)).2
                (fs1.files.length + fs1.dirs.length + 1) 0]),
           destDir ++ [findFree fs1 destDir
                (splitext (basename src)).1 (splitext (basename src)).2
                (fs1.files.length + fs1.dirs.length + 1) 0]) := by
  unfold safe_move
  rw [h, hmk]
  rfl

/-- The full contract of `safe_move` on an existing source file (shared
by several theorems below). -/
lemma safe_move_spec :
    ∀ (fs : FS) (src destDir : Path), (fs.lookup src).isSome →
      (fs.lookup destDir = none ∨ destDir ∈ fs.dirs) →
      ∃ (fs' : FS) (name : String) (k : Nat),
        safe_move fs src destDir = .ok (fs', destDir ++ [name]) ∧
        name = cand (splitext (basename src)).1 (splitext (basename src)).2 k ∧
        pathExists fs (destDir ++ [name]) = false ∧
        (∀ j, j < k →
          pathExists fs
            (destDir ++ [cand (splitext (basename src)).1 (splitext (basename src)).2 j]) =
            true) ∧
        (pathExists fs (destDir ++ [basename src]) = false → name = basename src) ∧
        fs'.lookup (destDir ++ [name]) = fs.lookup src ∧
        fs'.lookup src = none ∧
        (∀ p : Path, p ≠ src → p ≠ destDir ++ [name] → fs'.lookup p = fs.lookup p) := by
  · intro fs src destDir h hdest
    have hex : pathExists fs src = true := pathExists_of_lookup h
    obtain ⟨d, hd⟩ := Option.isSome_iff_exists.mp h
    obtain ⟨fs1, hmk⟩ := makedirs_isOk hdest
    rw [safe_move_eq destDir hex hmk]
    obtain ⟨j, hj1, hj2⟩ :=
      exists_free fs1 destDir
        (splitext (basename src)).1 (splitext (basename src)).2
    obtain ⟨k, hk0, hkeq, hkfree, hktaken⟩ :=
      findFree_spec fs1 destDir
        (splitext (basename src)).1 (splitext (basename src)).2
        (fs1.files.length + fs1.dirs.length + 1) 0
        ⟨j, Nat.zero_le j, by omega, hj2⟩
    set nm := findFree fs1 destDir
        (splitext (basename src)).1 (splitext (basename src)).2
        (fs1.files.length + fs1.dirs.length + 1) 0 with hnm
    have htrans : ∀ s : String,
        pathExists fs1 (destDir ++ [s]) = pathExists fs (destDir ++ [s]) :=
      fun s => pathExists_makedirs_append hmk s
    have hfree : pathExists fs (destDir ++ [nm]) = false := by
      rw [← htrans nm, hkeq]
      exact hkfree
    have htaken : ∀ j', j' < k →
        pathExists fs
          (destDir ++ [cand (splitext (basename src)).1 (splitext (basename src)).2 j']) =
          true := by
      intro j' hj'
      rw [← htrans]
      exact hktaken j' (Nat.zero_le j') hj'
    have hbase : cand (splitext (basename src)).1 (splitext (basename src)).2 0 =
        basename src := splitext_recombine (basename src)
    have hsrcne : src ≠ destDir ++ [nm] := by
      intro e
      rw [e, hfree] at hex
      exact Bool.false_ne_true hex
    have hfs1files : fs1.files = fs.files := makedirs_ok_files hmk
    have hndirs : destDir ++ [nm] ∉ fs1.dirs := by
      apply not_mem_dirs_of_not_exists
      rw [htrans nm]
      exact hfree
    have hlook1 : fs1.lookup src = some d := by
      rw [makedirs_ok_lookup hmk]
      exact hd
    have hmove : shutilMove fs1 src (destDir ++ [nm]) =
        FS.writeFile (FS.removeFile fs1 src) (destDir ++ [nm]) d := by
      unfold shutilMove
      rw [hlook1]
      simp only [hndirs, if_false]
    refine ⟨_, nm, k, rfl, hkeq, hfree, htaken, ?_, ?_, ?_, ?_⟩
    · intro hfree0
      match k, hkeq with
      | 0, hkeq => rw [hkeq, hbase]
      | k' + 1, hkeq =>
        exfalso
        have := htaken 0 (Nat.succ_pos k')
        rw [hbase, hfree0] at this
        exact Bool.false_ne_true this
    · rw [hmove]
      show findFile (setFile (eraseEntry fs1.files src) (destDir ++ [nm]) d)
          (destDir ++ [nm]) = fs.lookup src
      unfold setFile
      rw [findFile_append_none _ (findFile_eraseEntry_self _ _), hd, findFile, if_pos rfl]
    · rw [hmove]
      show findFile (setFile (eraseEntry fs1.files src) (destDir ++ [nm]) d)
          src = none
      unfold setFile
      rw [findFile_append_none]
      · rw [findFile, if_neg (fun e => hsrcne e.symm)]
        rfl
      · rw [findFile_eraseEntry_ne _ hsrcne]
        exact findFile_eraseEntry_self _ _
    · intro p hp1 hp2
      rw [hmove]
      show findFile (setFile (eraseEntry fs1.files src) (destDir ++ [nm]) d)
          p = fs.lookup p
      unfold setFile
      have herase : findFile (eraseEntry (eraseEntry fs1.files src)
          (destDir ++ [nm])) p = findFile fs.files p := by
        rw [findFile_eraseEntry_ne _ hp2, findFile_eraseEntry_ne _ hp1, hfs1files]
      cases hfp : findFile fs.files p with
      | none =>
        rw [findFile_append_none]
        · rw [findFile, if_neg (fun e => hp2 e.symm)]
          exact hfp.symm
        · rw [herase]
          exact hfp
      | some e =>
        rw [findFile_append_some]
        · exact hfp.symm
        · rw [herase]
          exact hfp

/-- The diagnostics the engine prints per file. -/
inductive Event
  | skippedFile (p : Path) (e : HashError)
  | duplicate (p : Path)
  | plannedMove (p : Path) (cat : String)
  | moveFailed (p : Path)
deriving DecidableEq, Repr

/-- The engine's running state during a walk: the filesystem, the
`seen` fingerprint index (digest, canonical path), the `log` list of
move records, the skipped-file counter, the printed diagnostics. -/
structure OrgState where
  fs : FS
  seen : List (FContent × Path)
  log : List (Path × Path)
  skipped : Nat
  events : List Event
deriving DecidableEq, Repr

/-- `h in seen` on the fingerprint index. -/
def seenMem : List (FContent × Path) → FContent → Bool
  | [], _ => false
  | (h, _) :: rest, x => decide (h = x) || seenMem rest x

/-- The body of the `for f in files` loop of `organize`, for one file
`name` inside directory `root`: skip the ledger file by name; classify;
fingerprint (a failure is counted and skipped); delete duplicates in a
live run (never registering them, never relocating them); leave
already-organized files alone; otherwise relocate in a live run and
append a move record. -/
def processFile (folder : Path) (dryRun : Bool) (st : OrgState) (root : Path)
    (name : String) : OrgState :=
  if name = LOG_FILE then st
  else
    let src := root ++ [name]
    let ext := lowerStr (splitext name).2
    let cat := category ext
    let destDir := folder ++ [cat]
    match sha256 st.fs src with
    | .error e =>
      { st with skipped := st.skipped + 1, events := st.events ++ [.skippedFile src e] }
    | .ok h =>
      if seenMem st.seen h then
        if dryRun then { st with events := st.events ++ [.duplicate src] }
        else { st with fs := st.fs.removeFile src, events := st.events ++ [.duplicate src] }
      else
        let st1 := { st with seen := st.seen ++ [(h, src)] }
        if src.dropLast = destDir then st1
        else
          let st2 := { st1 with events := st1.events ++ [.plannedMove src cat] }
          if dryRun then st2
          else
            match safe_move st2.fs src destDir with
            | .error _ =>
              { st2 with skipped := st2.skipped + 1,
                         events := st2.events ++ [.moveFailed src] }
            | .ok (fs', newP) => { st2 with fs := fs', log := st2.log ++ [(src, newP)] }

/-- The file names listed in directory `d`, in listing order. -/
def listDirFiles (fs : FS) (d : Path) : List String :=
  fs.files.filterMap fun e => if e.1 ≠ [] ∧ e.1.dropLast = d then some (basename e.1) else none

/-- The immediate subdirectories of `d`. -/
def listSubdirs (dirs : List Path) (d : Path) : List Path :=
  (dirs.filter fun q => decide (q ≠ []) && decide (q.dropLast = d)).dedup

/-- `os.walk` (top-down, as in CPython): the next pending directory is
scanned on the *current* filesystem state, its files are processed, and
its subdirectory snapshot is prepended to the pending list.  The fuel
always exceeds the number of directories the walk can reach (`organize`
passes one more than the number of directories that exist at the start;
category directories created during the run are never walked because
they are created after their parent's snapshot was taken). -/
def walkDirs (folder : Path) (dryRun : Bool) : Nat → OrgState → List Path → OrgState
  | 0, st, _ => st
  | _, st, [] => st
  | fuel + 1, st, d :: pending =>
    let names := listDirFiles st.fs d
    let subs := listSubdirs st.fs.dirs d
    let st' := names.foldl (fun s n => processFile folder dryRun s d n) st
    walkDirs folder dryRun fuel st' (subs ++ pending)

/-- The `ValueError`s `organize` raises before any work: missing target,
target not a directory.  (The directory-readability check raises
`PermissionError` in the source; directory permissions are not part of
the model.) -/
inductive OrgError
  | folderNotFound
  | notADirectory
deriving DecidableEq, Repr

/-- What one `organize` run returns to the caller/observer: the final
filesystem, the run-scoped fingerprint index, the move records, the
skipped count and the diagnostics. -/
structure OrgResult where
  fs : FS
  index : List (FContent × Path)
  log : List (Path × Path)
  skipped : Nat
  events : List Event
deriving DecidableEq, Repr

/-- The ledger file content written at the end of a live run (the
timestamp field carries no information the model tracks). -/
def ledgerOf (log : List (Path × Path)) : FileData :=
  ⟨.ledgerJson (.moves (log.map fun r => .move r.1 r.2)), .ok⟩

/-- `organize` from `core.py`: validate the folder, walk the tree, and
after a live walk with a non-empty log persist the ledger to the
folder's well-known ledger file name (overwriting any prior ledger). -/
def organize (fs : FS) (folder : Path) (dryRun : Bool) : Except OrgError OrgResult :=
  if pathExists fs folder = false then .error .folderNotFound
  else if decide (folder ∈ fs.dirs) = false then .error .notADirectory
  else
    let st := walkDirs folder dryRun (fs.dirs.length + 1) ⟨fs, [], [], 0, []⟩ [folder]
    let fs' :=
      if dryRun = false ∧ st.log ≠ [] then
        st.fs.writeFile (folder ++ [LOG_FILE]) (ledgerOf st.log)
      else st.fs
    .ok ⟨fs', st.seen, st.log, st.skipped, st.events⟩

/-- The failing input for C2: a folder `r` holding one regular file
`a.mp3` and a pre-existing (empty) category subdirectory `Audio`. -/
def bugFS : FS :=
  ⟨[(["r", "a.mp3"], ⟨.bytes 5, .ok⟩)], [["r"], ["r", "Audio"]]⟩

/-- **C2.** Exactly-once processing fails on the code: on `bugFS` the
live run first relocates `r/a.mp3` to `r/Audio/a.mp3` (the move record
is in the log), then — because the pre-existing directory `Audio` was in
the walk snapshot and is scanned only after the move — re-visits the
same file, finds its fingerprint already registered, and deletes it as a
"duplicate" of itself: afterwards no file with its content exists
anywhere.  A file thus reaches two terminal states (Relocated, then
Duplicate-Removed), contradicting the claimed mutual exclusivity. -/
theorem organize_revisits_moved_file :
    ∃ r, organize bugFS ["r"] false = .ok r ∧
      r.log = [(["r", "a.mp3"], ["r", "Audio", "a.mp3"])] ∧
      r.fs.lookup ["r", "Audio", "a.mp3"] = none ∧
      r.fs.lookup ["r", "a.mp3"] = none ∧
      (r.fs.files.all fun e => decide (e.2.content ≠ .bytes 5)) = true ∧
      r.events = [.plannedMove ["r", "a.mp3"] "Audio",
                  .duplicate ["r", "Audio", "a.mp3"]] :=
  ⟨_, rfl, rfl, rfl, rfl, rfl, rfl⟩

lemma append_one_ne_append_two (l : Path) (a b c : String) : l ++ [a] ≠ l ++ [b, c] := by
  intro h
  have := congrArg List.length h
  simp at this

lemma append_two_ne_append_one (l : Path) (a b c : String) : l ++ [a, b] ≠ l ++ [c] := by
  intro h
  have := congrArg List.length h
  simp at this

lemma append_two_ne_self (l : Path) (a b : String) : l ++ [a, b] ≠ l := by
  intro h
  have := congrArg List.length h
  simp at this

lemma dropLast_self_false (l : Path) :
    (decide (l ≠ []) && decide (l.dropLast = l)) = false := by
  cases l with
  | nil => simp
  | cons a t =>
    have hne : (a :: t).dropLast ≠ a :: t := by
      intro h
      have h2 := congrArg List.length h
      rw [List.length_dropLast, List.length_cons] at h2
      omega
    simp [hne]

lemma dropLast_self_false' (l : Path) :
    (!decide (l = []) && decide (l.dropLast = l)) = false := by
  cases l with
  | nil => simp
  | cons a t =>
    have hne : (a :: t).dropLast ≠ a :: t := by
      intro h
      have h2 := congrArg List.length h
      rw [List.length_dropLast, List.length_cons] at h2
      omega
    simp [hne]

/-- **C3 (amended).** Duplicate suppression: a live run on a folder
holding exactly two files with byte-identical content and different
names — neither of which is itself named like the first file's category
folder, so that `os.makedirs` on the category directory cannot hit a
regular file of that name and raise `FileExistsError` — moves the
first-listed file under its category folder and deletes the second;
afterwards exactly those two files exist: the survivor and the ledger.
The first-seen file is the only canonical entry of the fingerprint
index, and the duplicate is never relocated and produces no move
record (the log holds exactly the one record of the survivor). -/
theorem organize_duplicate_suppression_amended :
    ∀ (folder : Path) (n1 n2 : String) (c : Nat),
      n1 ≠ n2 → n1 ≠ LOG_FILE → n2 ≠ LOG_FILE →
      n1 ≠ category (lowerStr (splitext n1).2) →
      n2 ≠ category (lowerStr (splitext n1).2) →
      ∃ r, organize ⟨[(folder ++ [n1], ⟨.bytes c, .ok⟩), (folder ++ [n2], ⟨.bytes c, .ok⟩)],
            [folder]⟩ folder false = .ok r ∧
        r.fs.files =
          [(folder ++ [category (lowerStr (splitext n1).2), n1], ⟨.bytes c, .ok⟩),
           (folder ++ [LOG_FILE],
            ledgerOf [(folder ++ [n1],
                       folder ++ [category (lowerStr (splitext n1).2), n1])])] ∧
        r.log = [(folder ++ [n1], folder ++ [category (lowerStr (splitext n1).2), n1])] ∧
        r.index = [(.bytes c, folder ++ [n1])] ∧
        r.events = [.plannedMove (folder ++ [n1]) (category (lowerStr (splitext n1).2)),
                    .duplicate (folder ++ [n2])] := by
  intro folder n1 n2 c hne h1 h2 hn1c hn2c
  set cat1 := category (lowerStr (splitext n1).2) with hcat
  have hf1 : folder ++ [n1] ≠ folder := append_singleton_ne folder n1
  have hf2 : folder ++ [n2] ≠ folder := append_singleton_ne folder n2
  have hcatf : folder ++ [cat1] ≠ folder := append_singleton_ne folder cat1
  have hfc : folder ≠ folder ++ [cat1] := fun h => hcatf h.symm
  have h12 : folder ++ [n1] ≠ folder ++ [n2] := by simp [hne]
  have h21 : folder ++ [n2] ≠ folder ++ [n1] := by simp [hne.symm]
  have hq1 : folder ++ [n1] ≠ folder ++ [cat1, n1] := append_one_ne_append_two folder n1 cat1 n1
  have hq2 : folder ++ [n2] ≠ folder ++ [cat1, n1] := append_one_ne_append_two folder n2 cat1 n1
  have hq2' : folder ++ [cat1, n1] ≠ folder ++ [n2] := append_two_ne_append_one folder cat1 n1 n2
  have hqf : folder ++ [cat1, n1] ≠ folder := append_two_ne_self folder cat1 n1
  have hqc : folder ++ [cat1, n1] ≠ folder ++ [cat1] := append_two_ne_append_one folder cat1 n1 cat1
  have hqlg : folder ++ [cat1, n1] ≠ folder ++ [LOG_FILE] :=
    append_two_ne_append_one folder cat1 n1 LOG_FILE
  refine ⟨⟨⟨[(folder ++ [cat1, n1], ⟨.bytes c, .ok⟩),
             (folder ++ [LOG_FILE], ledgerOf [(folder ++ [n1], folder ++ [cat1, n1])])],
            [folder, folder ++ [cat1]]⟩,
           [(.bytes c, folder ++ [n1])],
           [(folder ++ [n1], folder ++ [cat1, n1])],
           0,
           [.plannedMove (folder ++ [n1]) cat1, .duplicate (folder ++ [n2])]⟩,
         ?_, rfl, rfl, rfl, rfl⟩
  simp [organize, walkDirs, listDirFiles, listSubdirs, processFile, sha256, pathExists,
    FS.lookup, FS.removeFile, FS.writeFile, setFile, findFile, eraseEntry, seenMem,
    safe_move, makedirs, findFree, cand, shutilMove, basename, splitext_recombine,
    dropLast_self_false, dropLast_self_false', hf1, hf2, hcatf, hfc, h12, h21, hq1, hq2,
    hq2', hqf, hqc, hqlg, hne, h1, h2, hn1c, hn2c]

/-- Witness for the amended C3 at a concrete folder: `a.mp3` and `b.mp3`
with equal content (neither named `Audio`); the survivor record and the
singleton index are as claimed. -/
theorem organize_duplicate_suppression_amended_witness :
    ∃ r, organize ⟨[(["r", "a.mp3"], ⟨.bytes 7, .ok⟩), (["r", "b.mp3"], ⟨.bytes 7, .ok⟩)],
          [["r"]]⟩ ["r"] false = .ok r ∧
      r.log = [(["r", "a.mp3"], ["r", "Audio", "a.mp3"])] ∧
      r.index = [(.bytes 7, ["r", "a.mp3"])] := by
  obtain ⟨r, ha, hb, hc, hd, he⟩ :=
    organize_duplicate_suppression_amended ["r"] "a.mp3" "b.mp3" 7 (by decide) (by decide)
      (by decide) (by decide) (by decide)
  exact ⟨r, ha, hc, hd⟩

/-- **C3 (counterexample).** As stated the claim is false: on the folder
`r` holding exactly the byte-identical files `Others` and `x` (distinct
names, neither the ledger name), the first file's category is `Others` —
the file's own name — so the live run's `os.makedirs(r/Others)` raises
`FileExistsError` (the path exists as a regular file and `exist_ok=True`
only tolerates directories).  The caught error skips the move: the
first file is NOT relocated (it stays at `r/Others`, nothing lands at
`r/Others/Others`), the log is empty and no ledger is written — the
duplicate `x` is still deleted. -/
theorem organize_duplicate_suppression_counterexample :
    ("Others" ≠ "x" ∧ "Others" ≠ LOG_FILE ∧ "x" ≠ LOG_FILE) ∧
    ∃ r, organize ⟨[(["r", "Others"], ⟨.bytes 5, .ok⟩), (["r", "x"], ⟨.bytes 5, .ok⟩)],
          [["r"]]⟩ ["r"] false = .ok r ∧
      r.log = [] ∧
      r.skipped = 1 ∧
      r.fs.files = [(["r", "Others"], ⟨.bytes 5, .ok⟩)] ∧
      r.fs.lookup ["r", "Others", "Others"] = none ∧
      r.events = [.plannedMove ["r", "Others"] "Others",
                  .moveFailed ["r", "Others"],
                  .duplicate ["r", "x"]] :=
  ⟨by decide, _, rfl, rfl, rfl, rfl, rfl, rfl⟩

/-- **C8.** Per-file failure containment: the fingerprinter's three
failure modes are raised as distinguishable error kinds (missing file →
`fileNotFound`, unreadable file → `permissionDenied`, failing read →
`ioError`), and a live run over a folder whose first-listed file fails
to fingerprint does not abort: the bad file is counted as skipped and
left in place, the run completes normally, and the next file is still
relocated and logged (the two file names are required not to coincide
with the second file's category folder name, so that its relocation
itself cannot fail on directory creation). -/
theorem fingerprint_failure_containment :
    (∀ (fs : FS) (p : Path), pathExists fs p = false →
      sha256 fs p = .error .fileNotFound) ∧
    (∀ (fs : FS) (p : Path) (d : FileData), fs.lookup p = some d → d.access = .noRead →
      sha256 fs p = .error .permissionDenied) ∧
    (∀ (fs : FS) (p : Path) (d : FileData), fs.lookup p = some d → d.access = .ioErr →
      sha256 fs p = .error .ioError) ∧
    (∀ (folder : Path) (n1 n2 : String) (c1 c2 : Nat) (a : Access),
      a ≠ .ok → n1 ≠ n2 → n1 ≠ LOG_FILE → n2 ≠ LOG_FILE →
      n1 ≠ category (lowerStr (splitext n2).2) →
      n2 ≠ category (lowerStr (splitext n2).2) →
      ∃ r, organize ⟨[(folder ++ [n1], ⟨.bytes c1, a⟩), (folder ++ [n2], ⟨.bytes c2, .ok⟩)],
            [folder]⟩ folder false = .ok r ∧
        r.skipped = 1 ∧
        r.log = [(folder ++ [n2], folder ++ [category (lowerStr (splitext n2).2), n2])] ∧
        r.fs.files =
          [(folder ++ [n1], ⟨.bytes c1, a⟩),
           (folder ++ [category (lowerStr (splitext n2).2), n2], ⟨.bytes c2, .ok⟩),
           (folder ++ [LOG_FILE],
            ledgerOf [(folder ++ [n2],
                       folder ++ [category (lowerStr (splitext n2).2), n2])])] ∧
        r.events = [.skippedFile (folder ++ [n1])
                      (if a = .noRead then .permissionDenied else .ioError),
                    .plannedMove (folder ++ [n2])
                      (category (lowerStr (splitext n2).2))]) := by
  refine ⟨?_, ?_, ?_, ?_⟩
  · intro fs p h
    simp [sha256, h]
  · intro fs p d hd ha
    have hpe : pathExists fs p = true := pathExists_of_lookup (by simp [hd])
    simp [sha256, hpe, hd, ha]
  · intro fs p d hd ha
    have hpe : pathExists fs p = true := pathExists_of_lookup (by simp [hd])
    simp [sha256, hpe, hd, ha]
  · intro folder n1 n2 c1 c2 a ha hne h1 h2 hn1c hn2c
    set cat2 := category (lowerStr (splitext n2).2) with hcat
    have hf1 : folder ++ [n1] ≠ folder := append_singleton_ne folder n1
    have hf2 : folder ++ [n2] ≠ folder := append_singleton_ne folder n2
    have hcatf : folder ++ [cat2] ≠ folder := append_singleton_ne folder cat2
    have hfc : folder ≠ folder ++ [cat2] := fun h => hcatf h.symm
    have h12 : folder ++ [n1] ≠ folder ++ [n2] := by simp [hne]
    have h21 : folder ++ [n2] ≠ folder ++ [n1] := by simp [hne.symm]
    have hq1 : folder ++ [n1] ≠ folder ++ [cat2, n2] := append_one_ne_append_two folder n1 cat2 n2
    have hq2 : folder ++ [n2] ≠ folder ++ [cat2, n2] := append_one_ne_append_two folder n2 cat2 n2
    have hqf : folder ++ [cat2, n2] ≠ folder := append_two_ne_self folder cat2 n2
    have hqc : folder ++ [cat2, n2] ≠ folder ++ [cat2] := append_two_ne_append_one folder cat2 n2 cat2
    have hqlg : folder ++ [cat2, n2] ≠ folder ++ [LOG_FILE] :=
      append_two_ne_append_one folder cat2 n2 LOG_FILE
    have hp1lg : folder ++ [n1] ≠ folder ++ [LOG_FILE] := by simp [h1]
    cases a with
    | ok => exact absurd rfl ha
    | noRead =>
      refine ⟨⟨⟨[(folder ++ [n1], ⟨.bytes c1, .noRead⟩),
                 (folder ++ [cat2, n2], ⟨.bytes c2, .ok⟩),
                 (folder ++ [LOG_FILE],
                  ledgerOf [(folder ++ [n2], folder ++ [cat2, n2])])],
                [folder, folder ++ [cat2]]⟩,
               [(.bytes c2, folder ++ [n2])],
               [(folder ++ [n2], folder ++ [cat2, n2])],
               1,
               [.skippedFile (folder ++ [n1]) .permissionDenied,
                .plannedMove (folder ++ [n2]) cat2]⟩,
             ?_, rfl, rfl, rfl, rfl⟩
      simp [organize, walkDirs, listDirFiles, listSubdirs, processFile, sha256, pathExists,
        FS.lookup, FS.removeFile, FS.writeFile, setFile, findFile, eraseEntry, seenMem,
        safe_move, makedirs, findFree, cand, shutilMove, basename, splitext_recombine,
        dropLast_self_false, dropLast_self_false', hf1, hf2, hcatf, hfc, h12, h21, hq1, hq2,
        hqf, hqc, hqlg, hp1lg, hne, h1, h2, hn1c, hn2c]
    | ioErr =>
      refine ⟨⟨⟨[(folder ++ [n1], ⟨.bytes c1, .ioErr⟩),
                 (folder ++ [cat2, n2], ⟨.bytes c2, .ok⟩),
                 (folder ++ [LOG_FILE],
                  ledgerOf [(folder ++ [n2], folder ++ [cat2, n2])])],
                [folder, folder ++ [cat2]]⟩,
               [(.bytes c2, folder ++ [n2])],
               [(folder ++ [n2], folder ++ [cat2, n2])],
               1,
               [.skippedFile (folder ++ [n1]) .ioError,
                .plannedMove (folder ++ [n2]) cat2]⟩,
             ?_, rfl, rfl, rfl, rfl⟩
      simp [organize, walkDirs, listDirFiles, listSubdirs, processFile, sha256, pathExists,
        FS.lookup, FS.removeFile, FS.writeFile, setFile, findFile, eraseEntry, seenMem,
        safe_move, makedirs, findFree, cand, shutilMove, basename, splitext_recombine,
        dropLast_self_false, dropLast_self_false', hf1, hf2, hcatf, hfc, h12, h21, hq1, hq2,
        hqf, hqc, hqlg, hp1lg, hne, h1, h2, hn1c, hn2c]

/-- Witness for C8: a concrete missing path, a concrete unreadable file,
a concrete failing read, and a concrete two-file run in which the first
file fails to fingerprint and the second is still organized. -/
theorem fingerprint_failure_containment_witness :
    sha256 ⟨[], []⟩ ["r", "gone.txt"] = .error .fileNotFound ∧
    sha256 ⟨[(["r", "x.txt"], ⟨.bytes 1, .noRead⟩)], [["r"]]⟩ ["r", "x.txt"] =
      .error .permissionDenied ∧
    sha256 ⟨[(["r", "y.txt"], ⟨.bytes 1, .ioErr⟩)], [["r"]]⟩ ["r", "y.txt"] =
      .error .ioError ∧
    (∃ r, organize ⟨[(["r"] ++ ["bad.txt"], ⟨.bytes 1, .ioErr⟩),
                     (["r"] ++ ["good.pdf"], ⟨.bytes 2, .ok⟩)], [["r"]]⟩ ["r"] false = .ok r ∧
      r.skipped = 1 ∧
      r.log = [(["r"] ++ ["good.pdf"],
                ["r"] ++ [category (lowerStr (splitext "good.pdf").2), "good.pdf"])]) := by
  refine ⟨fingerprint_failure_containment.1 _ _ (by decide),
          fingerprint_failure_containment.2.1 _ ["r", "x.txt"] ⟨.bytes 1, .noRead⟩ rfl rfl,
          fingerprint_failure_containment.2.2.1 _ ["r", "y.txt"] ⟨.bytes 1, .ioErr⟩ rfl rfl, ?_⟩
  obtain ⟨r, ha, hb, hc, _, _⟩ :=
    fingerprint_failure_containment.2.2.2 ["r"] "bad.txt" "good.pdf" 1 2 .ioErr
      (by decide) (by decide) (by decide) (by decide) (by decide) (by decide)
  exact ⟨r, ha, hb, hc⟩

/-! ### Preview (dry-run) purity -/

lemma processFile_dry_fs (folder : Path) (st : OrgState) (root : Path) (n : String) :
    (processFile folder true st root n).fs = st.fs := by
  simp only [processFile]
  split
  · rfl
  · split
    · rfl
    · split
      · simp
      · split
        · rfl
        · simp

lemma foldl_processFile_dry_fs (folder root : Path) :
    ∀ (names : List String) (st : OrgState),
      (names.foldl (fun s n => processFile folder true s root n) st).fs = st.fs := by
  intro names
  induction names with
  | nil => intro st; rfl
  | cons n rest ih =>
    intro st
    rw [List.foldl_cons, ih, processFile_dry_fs]

lemma walkDirs_dry_fs (folder : Path) :
    ∀ (fuel : Nat) (st : OrgState) (pending : List Path),
      (walkDirs folder true fuel st pending).fs = st.fs := by
  intro fuel
  induction fuel with
  | zero => intro st pending; cases pending <;> rfl
  | succ f ih =>
    intro st pending
    cases pending with
    | nil => rfl
    | cons d rest =>
      simp only [walkDirs]
      rw [ih, foldl_processFile_dry_fs]

lemma sha256_congr {fsa fsb : FS} {p : Path} (h : fsa.lookup p = fsb.lookup p)
    (hs : (fsa.lookup p).isSome) : sha256 fsa p = sha256 fsb p := by
  have hb : (fsb.lookup p).isSome := by rw [← h]; exact hs
  have ha' : pathExists fsa p = true := pathExists_of_lookup hs
  have hb' : pathExists fsb p = true := pathExists_of_lookup hb
  unfold sha256
  rw [ha', hb', h]

lemma findFile_eraseEntry_none {X : List (Path × FileData)} {p : Path} (t : Path)
    (h : findFile X p = none) : findFile (eraseEntry X t) p = none := by
  by_cases hpt : p = t
  · subst hpt
    exact findFile_eraseEntry_self _ _
  · rw [findFile_eraseEntry_ne _ hpt]
    exact h

lemma foldl_dry_live (folder : Path) (fs0 : FS) :
    ∀ (names : List String) (sd sl : OrgState),
      sd.fs = fs0 →
      sd.seen = sl.seen → sd.events = sl.events → sd.skipped = sl.skipped →
      names.Nodup →
      (∀ n ∈ names, sl.fs.lookup (folder ++ [n]) = fs0.lookup (folder ++ [n])) →
      (∀ n ∈ names, (fs0.lookup (folder ++ [n])).isSome) →
      (∀ n ∈ names,
        sl.fs.lookup (folder ++ [category (lowerStr (splitext n).2)]) = none) →
      ((names.foldl (fun s n => processFile folder true s folder n) sd).seen =
        (names.foldl (fun s n => processFile folder false s folder n) sl).seen) ∧
      ((names.foldl (fun s n => processFile folder true s folder n) sd).events =
        (names.foldl (fun s n => processFile folder false s folder n) sl).events) ∧
      ((names.foldl (fun s n => processFile folder true s folder n) sd).skipped =
        (names.foldl (fun s n => processFile folder false s folder n) sl).skipped) := by
  intro names
  induction names with
  | nil =>
    intro sd sl _ hseen hev hsk _ _ _ _
    exact ⟨hseen, hev, hsk⟩
  | cons n rest ih =>
    intro sd sl hfs hseen hev hsk hnd hagree hsome hcat
    obtain ⟨hnmem, hnd'⟩ := List.nodup_cons.mp hnd
    simp only [List.foldl_cons]
    by_cases hlog : n = LOG_FILE
    · have hd : processFile folder true sd folder n = sd := by
        simp only [processFile, if_pos hlog]
      have hl : processFile folder false sl folder n = sl := by
        simp only [processFile, if_pos hlog]
      rw [hd, hl]
      exact ih sd sl hfs hseen hev hsk hnd'
        (fun m hm => hagree m (List.mem_cons_of_mem _ hm))
        (fun m hm => hsome m (List.mem_cons_of_mem _ hm))
        (fun m hm => hcat m (List.mem_cons_of_mem _ hm))
    · have hsrcagree : sl.fs.lookup (folder ++ [n]) = fs0.lookup (folder ++ [n]) :=
        hagree n (List.mem_cons_self _ _)
      have hsrcsome : (fs0.lookup (folder ++ [n])).isSome := hsome n (List.mem_cons_self _ _)
      have hsdlook : sd.fs.lookup (folder ++ [n]) = fs0.lookup (folder ++ [n]) := by rw [hfs]
      have hsha : sha256 sl.fs (folder ++ [n]) = sha256 sd.fs (folder ++ [n]) := by
        apply sha256_congr
        · rw [hsrcagree, hsdlook]
        · rw [hsrcagree]
          exact hsrcsome
      have hrestagree : ∀ m ∈ rest, folder ++ [m] ≠ folder ++ [n] := by
        intro m hm
        have : m ≠ n := fun e => hnmem (e ▸ hm)
        simp [this]
      cases hres : sha256 sd.fs (folder ++ [n]) with
      | error e =>
        have hresl : sha256 sl.fs (folder ++ [n]) = .error e := by rw [hsha, hres]
        have hd : processFile folder true sd folder n =
            { sd with skipped := sd.skipped + 1,
                      events := sd.events ++ [.skippedFile (folder ++ [n]) e] } := by
          simp only [processFile, if_neg hlog, hres]
        have hl : processFile folder false sl folder n =
            { sl with skipped := sl.skipped + 1,
                      events := sl.events ++ [.skippedFile (folder ++ [n]) e] } := by
          simp only [processFile, if_neg hlog, hresl]
        rw [hd, hl]
        exact ih _ _ (by simp [hfs]) (by simp [hseen]) (by simp [hev]) (by simp [hsk]) hnd'
          (fun m hm => hagree m (List.mem_cons_of_mem _ hm))
          (fun m hm => hsome m (List.mem_cons_of_mem _ hm))
          (fun m hm => hcat m (List.mem_cons_of_mem _ hm))
      | ok h =>
        have hresl : sha256 sl.fs (folder ++ [n]) = .ok h := by rw [hsha, hres]
        by_cases hmem : seenMem sd.seen h = true
        · have hmeml : seenMem sl.seen h = true := by rw [← hseen]; exact hmem
          have hd : processFile folder true sd folder n =
              { sd with events := sd.events ++ [.duplicate (folder ++ [n])] } := by
            simp only [processFile, if_neg hlog, hres, hmem, if_true, if_pos rfl]
          have hl : processFile folder false sl folder n =
              { sl with fs := sl.fs.removeFile (folder ++ [n]),
                        events := sl.events ++ [.duplicate (folder ++ [n])] } := by
            simp only [processFile, if_neg hlog, hresl, hmeml, if_true]
            simp
          rw [hd, hl]
          refine ih _ _ (by simp [hfs]) (by simp [hseen]) (by simp [hev]) (by simp [hsk]) hnd'
            ?_ (fun m hm => hsome m (List.mem_cons_of_mem _ hm)) ?_
          · intro m hm
            show (FS.removeFile sl.fs (folder ++ [n])).lookup (folder ++ [m]) = _
            unfold FS.removeFile FS.lookup
            rw [findFile_eraseEntry_ne _ (hrestagree m hm)]
            exact hagree m (List.mem_cons_of_mem _ hm)
          · intro m hm
            show (FS.removeFile sl.fs (folder ++ [n])).lookup
              (folder ++ [category (lowerStr (splitext m).2)]) = none
            unfold FS.removeFile FS.lookup
            exact findFile_eraseEntry_none _ (hcat m (List.mem_cons_of_mem _ hm))
        · have hmeml : seenMem sl.seen h = false := by
            rw [← hseen]
            cases hx : seenMem sd.seen h
            · rfl
            · exact absurd hx hmem
          have hmemd : seenMem sd.seen h = false := by
            cases hx : seenMem sd.seen h
            · rfl
            · exact absurd hx hmem
          by_cases hdir : (folder ++ [n]).dropLast =
              folder ++ [category (lowerStr (splitext n).2)]
          · have hd : processFile folder true sd folder n =
                { sd with seen := sd.seen ++ [(h, folder ++ [n])] } := by
              simp only [processFile, if_neg hlog, hres, hmemd, Bool.false_eq_true, if_false,
                if_pos hdir]
            have hl : processFile folder false sl folder n =
                { sl with seen := sl.seen ++ [(h, folder ++ [n])] } := by
              simp only [processFile, if_neg hlog, hresl, hmeml, Bool.false_eq_true, if_false,
                if_pos hdir]
            rw [hd, hl]
            exact ih _ _ (by simp [hfs]) (by simp [hseen]) (by simp [hev]) (by simp [hsk]) hnd'
              (fun m hm => hagree m (List.mem_cons_of_mem _ hm))
              (fun m hm => hsome m (List.mem_cons_of_mem _ hm))
              (fun m hm => hcat m (List.mem_cons_of_mem _ hm))
          · have hslsome : (sl.fs.lookup (folder ++ [n])).isSome := by
              rw [hsrcagree]
              exact hsrcsome
            obtain ⟨fs', name, k, hmv, _, _, _, _, _, _, hframe⟩ :=
              safe_move_spec sl.fs (folder ++ [n])
                (folder ++ [category (lowerStr (splitext n).2)]) hslsome
                (Or.inl (hcat n (List.mem_cons_self _ _)))
            have hd : processFile folder true sd folder n =
                { sd with seen := sd.seen ++ [(h, folder ++ [n])],
                          events := sd.events ++
                            [.plannedMove (folder ++ [n])
                              (category (lowerStr (splitext n).2))] } := by
              simp only [processFile, if_neg hlog, hres, hmemd, Bool.false_eq_true, if_false,
                if_neg hdir]
              simp
            have hl : processFile folder false sl folder n =
                { sl with fs := fs',
                          seen := sl.seen ++ [(h, folder ++ [n])],
                          log := sl.log ++ [(folder ++ [n],
                            folder ++ [category (lowerStr (splitext n).2)] ++ [name])],
                          events := sl.events ++
                            [.plannedMove (folder ++ [n])
                              (category (lowerStr (splitext n).2))] } := by
              simp only [processFile, if_neg hlog, hresl, hmeml, Bool.false_eq_true, if_false,
                if_neg hdir, hmv]
            rw [hd, hl]
            refine ih _ _ (by simp [hfs]) (by simp [hseen]) (by simp [hev]) (by simp [hsk]) hnd'
              ?_ (fun m hm => hsome m (List.mem_cons_of_mem _ hm)) ?_
            · intro m hm
              show fs'.lookup (folder ++ [m]) = _
              rw [hframe _ (hrestagree m hm) ?_]
              · exact hagree m (List.mem_cons_of_mem _ hm)
              · intro e
                have := congrArg List.length e
                simp at this
            · intro m hm
              show fs'.lookup (folder ++ [category (lowerStr (splitext m).2)]) = none
              have hpsrc : folder ++ [category (lowerStr (splitext m).2)] ≠ folder ++ [n] := by
                intro e
                have hc := hcat m (List.mem_cons_of_mem _ hm)
                rw [e, hsrcagree] at hc
                rw [hc] at hsrcsome
                simp at hsrcsome
              have hpnew : folder ++ [category (lowerStr (splitext m).2)] ≠
                  folder ++ [category (lowerStr (splitext n).2)] ++ [name] := by
                intro e
                have := congrArg List.length e
                simp at this
              rw [hframe _ hpsrc hpnew]
              exact hcat m (List.mem_cons_of_mem _ hm)

lemma listDirFiles_lookup_isSome :
    ∀ (files : List (Path × FileData)) (d : Path) (n : String),
      n ∈ (files.filterMap fun e =>
        if e.1 ≠ [] ∧ e.1.dropLast = d then some (basename e.1) else none) →
      (findFile files (d ++ [n])).isSome := by
  intro files
  induction files with
  | nil => intro d n h; simp at h
  | cons hd tl ih =>
    intro d n h
    obtain ⟨q, dd⟩ := hd
    by_cases hq : q = d ++ [n]
    · simp [findFile, if_pos hq]
    · rw [findFile, if_neg hq]
      apply ih
      rcases List.mem_filterMap.mp h with ⟨e, he, heq⟩
      rcases List.mem_cons.mp he with he1 | he2
      · exfalso
        subst he1
        by_cases hc : (q, dd).1 ≠ [] ∧ (q, dd).1.dropLast = d
        · rw [if_pos hc] at heq
          apply hq
          obtain ⟨hq1, hq2⟩ := hc
          have : q.dropLast ++ [basename q] = q := by
            clear heq hq ih h he hq2
            induction q with
            | nil => exact absurd rfl hq1
            | cons a t iht =>
              cases t with
              | nil => rfl
              | cons b t2 =>
                have := iht (by simp)
                simp only [basename] at this ⊢
                rw [List.dropLast_cons_of_ne_nil (by simp), List.cons_append]
                rw [show (b :: t2).getLastD "" = (a :: b :: t2).getLastD "" from rfl] at this
                rw [this]
          rw [← this, hq2]
          injection heq with heq2
          rw [heq2]
        · rw [if_neg hc] at heq
          exact Option.noConfusion heq
      · exact List.mem_filterMap.mpr ⟨e, he2, heq⟩

lemma lookup_isSome_mem_listDirFiles :
    ∀ (files : List (Path × FileData)) (d : Path) (x : String),
      (findFile files (d ++ [x])).isSome →
      x ∈ (files.filterMap fun e =>
        if e.1 ≠ [] ∧ e.1.dropLast = d then some (basename e.1) else none) := by
  intro files
  induction files with
  | nil =>
    intro d x h
    simp [findFile] at h
  | cons hd tl ih =>
    intro d x h
    obtain ⟨q, dd⟩ := hd
    by_cases hq : q = d ++ [x]
    · subst hq
      rw [List.filterMap_cons]
      have hcond : ((d ++ [x], dd).1 ≠ [] ∧ (d ++ [x], dd).1.dropLast = d) :=
        ⟨by simp, by simp⟩
      rw [if_pos hcond]
      have hbn : basename (d ++ [x], dd).1 = x := by simp [basename]
      rw [hbn]
      exact List.mem_cons_self _ _
    · simp only [findFile, if_neg hq] at h
      rw [List.filterMap_cons]
      split
      · exact ih d x h
      · exact List.mem_cons_of_mem _ (ih d x h)

/-- **C5.** Preview purity: a run with the preview flag leaves the
filesystem exactly as it was (this holds for every input), and — on a
folder with no subdirectories whose files' category names are not
shadowed by files of the same name (so no live move can fail on
directory creation) — the preview run computes and reports exactly the
same classification, duplicate-detection and intended-move decisions as
the live run: same diagnostics, same fingerprint index, same skip
count. -/
theorem organize_preview_pure :
    (∀ (fs : FS) (folder : Path) (r : OrgResult),
      organize fs folder true = .ok r → r.fs = fs) ∧
    (∀ (fs : FS) (folder : Path) (rd rl : OrgResult),
      listSubdirs fs.dirs folder = [] →
      (listDirFiles fs folder).Nodup →
      (∀ n ∈ listDirFiles fs folder,
        category (lowerStr (splitext n).2) ∉ listDirFiles fs folder) →
      organize fs folder true = .ok rd →
      organize fs folder false = .ok rl →
      rd.events = rl.events ∧ rd.index = rl.index ∧ rd.skipped = rl.skipped) := by
  have hwalk_nil : ∀ (fo : Path) (b : Bool) (f : Nat) (st : OrgState),
      walkDirs fo b f st [] = st := by
    intro fo b f st
    cases f <;> rfl
  constructor
  · intro fs folder r hok
    by_cases h1 : pathExists fs folder = false
    · unfold organize at hok
      rw [if_pos h1] at hok
      exact Except.noConfusion hok
    · by_cases h2 : decide (folder ∈ fs.dirs) = false
      · unfold organize at hok
        rw [if_neg h1, if_pos h2] at hok
        exact Except.noConfusion hok
      · unfold organize at hok
        rw [if_neg h1, if_neg h2] at hok
        have hr := Except.ok.inj hok
        rw [← hr]
        simp only [Bool.true_eq_false, false_and, if_false]
        exact walkDirs_dry_fs folder _ _ _
  · intro fs folder rd rl hflat hnd hsafe hokd hokl
    by_cases h1 : pathExists fs folder = false
    · unfold organize at hokd
      rw [if_pos h1] at hokd
      exact Except.noConfusion hokd
    · by_cases h2 : decide (folder ∈ fs.dirs) = false
      · unfold organize at hokd
        rw [if_neg h1, if_pos h2] at hokd
        exact Except.noConfusion hokd
      · unfold organize at hokd hokl
        rw [if_neg h1, if_neg h2] at hokd hokl
        have hwd : walkDirs folder true (fs.dirs.length + 1) ⟨fs, [], [], 0, []⟩ [folder] =
            (listDirFiles fs folder).foldl
              (fun s n => processFile folder true s folder n) ⟨fs, [], [], 0, []⟩ := by
          rw [walkDirs]
          simp only [hflat, List.nil_append]
          exact hwalk_nil _ _ _ _
        have hwl : walkDirs folder false (fs.dirs.length + 1) ⟨fs, [], [], 0, []⟩ [folder] =
            (listDirFiles fs folder).foldl
              (fun s n => processFile folder false s folder n) ⟨fs, [], [], 0, []⟩ := by
          rw [walkDirs]
          simp only [hflat, List.nil_append]
          exact hwalk_nil _ _ _ _
        obtain ⟨hseen, hev, hsk⟩ :=
          foldl_dry_live folder fs (listDirFiles fs folder)
            ⟨fs, [], [], 0, []⟩ ⟨fs, [], [], 0, []⟩ rfl rfl rfl rfl hnd
            (fun m _ => rfl)
            (fun m hm => listDirFiles_lookup_isSome fs.files folder m hm)
            (fun m hm => by
              show fs.lookup (folder ++ [category (lowerStr (splitext m).2)]) = none
              by_contra hne
              have hs : (findFile fs.files
                  (folder ++ [category (lowerStr (splitext m).2)])).isSome := by
                cases h : fs.lookup (folder ++ [category (lowerStr (splitext m).2)]) with
                | none => exact absurd h hne
                | some d =>
                  show (fs.lookup
                    (folder ++ [category (lowerStr (splitext m).2)])).isSome
                  rw [h]; rfl
              exact hsafe m hm
                (lookup_isSome_mem_listDirFiles fs.files folder _ hs))
        have hrd := Except.ok.inj hokd
        have hrl := Except.ok.inj hokl
        rw [← hrd, ← hrl]
        simp only []
        rw [hwd, hwl]
        exact ⟨hev, hseen, hsk⟩

/-! ### The restore engine (`restore.py`) -/

/-- The observable outcomes of a `restore` call: missing ledger, an
unreadable/un-openable ledger, a ledger that fails JSON parsing, a
parsed object without a valid `"moves"` list, or a completed sweep with
its restored/failed counts. -/
inductive RestoreOutcome
  | noLog
  | readError
  | corrupted
  | invalidFormat
  | done (restored failed : Nat)
deriving DecidableEq, Repr

/-- The body of the `for move in reversed(data["moves"])` loop: a
malformed entry or an entry whose recorded final path no longer exists
is counted as failed and skipped; otherwise the original directory is
recreated if missing and the file is moved back with the same move
primitive the relocator uses; the surrounding
`except (PermissionError, OSError)` turns a directory-creation failure
(original's parent occupied by a regular file) into a failed count. -/
def restoreEntry : FS × Nat × Nat → Entry → FS × Nat × Nat
  | (fs, r, f), .malformed => (fs, r, f + 1)
  | (fs, r, f), .move orig moved =>
    if pathExists fs moved = false then (fs, r, f + 1)
    else
      match makedirs fs orig.dropLast with
      | .error _ => (fs, r, f + 1)
      | .ok fs1 => (shutilMove fs1 moved orig, r + 1, f)

/-- `restore` from `restore.py`: `ValueError` on a missing folder; "no
log file" when the ledger is absent (a success, no filesystem change);
a read error when it cannot be opened; a corruption error on JSON
failure; an invalid-format error when the `"moves"` list is missing;
otherwise process the records in strict reverse recorded order,
accumulating restored/failed counts.  The ledger is not deleted or
rewritten afterwards. -/
def restore (fs : FS) (folder : Path) : Except OrgError (FS × RestoreOutcome) :=
  if pathExists fs folder = false then .error .folderNotFound
  else
    match fs.lookup (folder ++ [LOG_FILE]) with
    | none =>
      if pathExists fs (folder ++ [LOG_FILE]) then .ok (fs, .readError)
      else .ok (fs, .noLog)
    | some d =>
      if d.access ≠ .ok then .ok (fs, .readError)
      else
        match d.content with
        | .bytes _ => .ok (fs, .corrupted)
        | .ledgerJson .noMoves => .ok (fs, .invalidFormat)
        | .ledgerJson (.moves es) =>
          let z := es.reverse.foldl restoreEntry (fs, 0, 0)
          .ok (z.1, .done z.2.1 z.2.2)

lemma restoreFold_all_missing :
    ∀ (L : List Entry) (fs : FS) (r f : Nat),
      (∀ e ∈ L, ∀ orig moved, e = .move orig moved → pathExists fs moved = false) →
      L.foldl restoreEntry (fs, r, f) = (fs, r, f + L.length) := by
  intro L
  induction L with
  | nil => intro fs r f _; rfl
  | cons e rest ih =>
    intro fs r f h
    rw [List.foldl_cons]
    have hstep : restoreEntry (fs, r, f) e = (fs, r, f + 1) := by
      cases e with
      | malformed => rfl
      | move orig moved =>
        have := h _ (List.mem_cons_self _ _) orig moved rfl
        simp only [restoreEntry]
        rw [this]
        rfl
    rw [hstep, ih fs r (f + 1) (fun e he => h e (List.mem_cons_of_mem _ he))]
    have : f + 1 + rest.length = f + (rest.length + 1) := by omega
    rw [this]
    rfl

/-- **C7.** Restore error handling: an absent ledger file yields the
"nothing to restore" outcome with the filesystem untouched; a present
but unparsable ledger yields the corruption outcome with no file moved;
a parsed ledger without a valid move list yields the invalid-format
outcome with no file moved; and a ledger whose records' final paths all
no longer exist completes the sweep normally with zero restored and all
N counted failed — no record aborts the run, and restoring zero of N is
not an error. -/
theorem restore_error_handling :
    (∀ (fs : FS) (folder : Path), pathExists fs folder = true →
      pathExists fs (folder ++ [LOG_FILE]) = false →
      restore fs folder = .ok (fs, .noLog)) ∧
    (∀ (fs : FS) (folder : Path) (b : Nat), pathExists fs folder = true →
      fs.lookup (folder ++ [LOG_FILE]) = some ⟨.bytes b, .ok⟩ →
      restore fs folder = .ok (fs, .corrupted)) ∧
    (∀ (fs : FS) (folder : Path), pathExists fs folder = true →
      fs.lookup (folder ++ [LOG_FILE]) = some ⟨.ledgerJson .noMoves, .ok⟩ →
      restore fs folder = .ok (fs, .invalidFormat)) ∧
    (∀ (fs : FS) (folder : Path) (es : List Entry), pathExists fs folder = true →
      fs.lookup (folder ++ [LOG_FILE]) = some ⟨.ledgerJson (.moves es), .ok⟩ →
      (∀ e ∈ es, ∀ orig moved, e = .move orig moved → pathExists fs moved = false) →
      restore fs folder = .ok (fs, .done 0 es.length)) := by
  have hfold : ∀ (b : Bool), b = true → ¬(b = false) := by decide
  refine ⟨?_, ?_, ?_, ?_⟩
  · intro fs folder hf hlp
    unfold restore
    rw [if_neg (hfold _ hf), lookup_eq_none_of_not_exists hlp, hlp]
    rfl
  · intro fs folder b hf hlp
    unfold restore
    rw [if_neg (hfold _ hf), hlp]
    rfl
  · intro fs folder hf hlp
    unfold restore
    rw [if_neg (hfold _ hf), hlp]
    rfl
  · intro fs folder es hf hlp hmiss
    unfold restore
    rw [if_neg (hfold _ hf), hlp]
    have hm' : ∀ e ∈ es.reverse, ∀ orig moved, e = .move orig moved →
        pathExists fs moved = false := by
      intro e he
      exact hmiss e (List.mem_reverse.mp he)
    show Except.ok ((es.reverse.foldl restoreEntry (fs, 0, 0)).1,
      RestoreOutcome.done (es.reverse.foldl restoreEntry (fs, 0, 0)).2.1
        (es.reverse.foldl restoreEntry (fs, 0, 0)).2.2) = .ok (fs, .done 0 es.length)
    rw [restoreFold_all_missing es.reverse fs 0 0 hm']
    simp

/-- Witness for C7 at concrete inputs: an empty folder (no ledger), a
byte-garbage ledger, a ledger without a move list, and a two-record
ledger whose destination files are both gone. -/
theorem restore_error_handling_witness :
    restore ⟨[], [["r"]]⟩ ["r"] = .ok (⟨[], [["r"]]⟩, .noLog) ∧
    restore ⟨[(["r", LOG_FILE], ⟨.bytes 3, .ok⟩)], [["r"]]⟩ ["r"] =
      .ok (⟨[(["r", LOG_FILE], ⟨.bytes 3, .ok⟩)], [["r"]]⟩, .corrupted) ∧
    restore ⟨[(["r", LOG_FILE], ⟨.ledgerJson .noMoves, .ok⟩)], [["r"]]⟩ ["r"] =
      .ok (⟨[(["r", LOG_FILE], ⟨.ledgerJson .noMoves, .ok⟩)], [["r"]]⟩, .invalidFormat) ∧
    restore ⟨[(["r", LOG_FILE],
               ⟨.ledgerJson (.moves [.move ["r", "a"] ["r", "D", "a"],
                                     .move ["r", "b"] ["r", "D", "b"]]), .ok⟩)], [["r"]]⟩
        ["r"] =
      .ok (⟨[(["r", LOG_FILE],
              ⟨.ledgerJson (.moves [.move ["r", "a"] ["r", "D", "a"],
                                    .move ["r", "b"] ["r", "D", "b"]]), .ok⟩)], [["r"]]⟩,
           .done 0 2) :=
  ⟨restore_error_handling.1 _ ["r"] (by decide) (by decide),
   restore_error_handling.2.1 _ ["r"] 3 (by decide) rfl,
   restore_error_handling.2.2.1 _ ["r"] (by decide) rfl,
   restore_error_handling.2.2.2
     ⟨[(["r", LOG_FILE],
        ⟨.ledgerJson (.moves [.move ["r", "a"] ["r", "D", "a"],
                              .move ["r", "b"] ["r", "D", "b"]]), .ok⟩)], [["r"]]⟩
     ["r"]
     [.move ["r", "a"] ["r", "D", "a"], .move ["r", "b"] ["r", "D", "b"]]
     (by decide) rfl
     (by
       intro e he orig moved heq
       subst heq
       rcases List.mem_cons.mp he with h | h
       · obtain ⟨h1, h2⟩ := Entry.move.inj h
         subst h2
         decide
       · rcases List.mem_cons.mp h with h' | h'
         · obtain ⟨h1, h2⟩ := Entry.move.inj h'
           subst h2
           decide
         · exact absurd h' (List.not_mem_nil _))⟩

/-- The state for C10: a ledger records the move `r/x.txt → r/Documents/x.txt`;
meanwhile a (new) file sits at the original path `r/x.txt`. -/
def overwriteFS : FS :=
  ⟨[(["r", LOG_FILE],
     ⟨.ledgerJson (.moves [.move ["r", "x.txt"] ["r", "Documents", "x.txt"]]), .ok⟩),
    (["r", "x.txt"], ⟨.bytes 7, .ok⟩),
    (["r", "Documents", "x.txt"], ⟨.bytes 9, .ok⟩)],
   [["r"], ["r", "Documents"]]⟩

/-- **C10.** Restore applies no conflict-safe renaming: on `overwriteFS`
the sweep moves `r/Documents/x.txt` back onto the occupied original path
`r/x.txt`, silently replacing the file that was there (its content
survives nowhere), while still reporting one successful restoration —
unlike `safe_move`, which never overwrites. -/
theorem restore_overwrites_at_original :
    ∃ fs', restore overwriteFS ["r"] = .ok (fs', .done 1 0) ∧
      fs'.lookup ["r", "x.txt"] = some ⟨.bytes 9, .ok⟩ ∧
      fs'.lookup ["r", "Documents", "x.txt"] = none ∧
      (fs'.files.all fun e => decide (e.2.content ≠ .bytes 7)) = true ∧
      overwriteFS.lookup ["r", "x.txt"] = some ⟨.bytes 7, .ok⟩ :=
  ⟨_, rfl, rfl, rfl, rfl, rfl⟩

/-- Witness for C5: on a concrete one-file folder the preview run returns
the filesystem unchanged, and its report equals the live run's report. -/
theorem organize_preview_pure_witness :
    (∃ r, organize ⟨[(["r", "a.pdf"], ⟨.bytes 3, .ok⟩)], [["r"]]⟩ ["r"] true = .ok r ∧
      r.fs = ⟨[(["r", "a.pdf"], ⟨.bytes 3, .ok⟩)], [["r"]]⟩) ∧
    (∃ rd rl, organize ⟨[(["r", "a.pdf"], ⟨.bytes 3, .ok⟩)], [["r"]]⟩ ["r"] true = .ok rd ∧
      organize ⟨[(["r", "a.pdf"], ⟨.bytes 3, .ok⟩)], [["r"]]⟩ ["r"] false = .ok rl ∧
      rd.events = rl.events) := by
  constructor
  · exact ⟨_, rfl, organize_preview_pure.1 _ ["r"] _ rfl⟩
  · exact ⟨⟨⟨[(["r", "a.pdf"], ⟨.bytes 3, .ok⟩)], [["r"]]⟩,
            [(.bytes 3, ["r", "a.pdf"])], [], 0,
            [.plannedMove ["r", "a.pdf"] "Documents"]⟩,
           ⟨⟨[(["r", "Documents", "a.pdf"], ⟨.bytes 3, .ok⟩),
              (["r", LOG_FILE], ledgerOf [(["r", "a.pdf"], ["r", "Documents", "a.pdf"])])],
             [["r"], ["r", "Documents"]]⟩,
            [(.bytes 3, ["r", "a.pdf"])],
            [(["r", "a.pdf"], ["r", "Documents", "a.pdf"])], 0,
            [.plannedMove ["r", "a.pdf"] "Documents"]⟩,
           rfl, rfl,
           (organize_preview_pure.2 ⟨[(["r", "a.pdf"], ⟨.bytes 3, .ok⟩)], [["r"]]⟩ ["r"] _ _
             (by decide) (by decide) (by decide) rfl rfl).1⟩

/-! ### The CLI boundary (`cli.py`) -/

/-- The run outcomes `main`'s `except` chain distinguishes, in the order
it tests them, plus the trailing catch-all. -/
inductive CliOutcome
  | success
  | keyboardInterrupt
  | valueError
  | permissionError
  | osError
  | otherError
deriving DecidableEq, Repr

/-- The process exit status `main` produces for each outcome: no
`sys.exit` call on success (exit status 0), 130 for
`KeyboardInterrupt`, 1 for `ValueError`, 13 for `PermissionError`, 1
for `OSError`/`IOError`, and 1 for any other exception. -/
def exitCode : CliOutcome → Nat
  | .success => 0
  | .keyboardInterrupt => 130
  | .valueError => 1
  | .permissionError => 13
  | .osError => 1
  | .otherError => 1

/-- **C9 (counterexample).** The exit codes do not distinguish all five
outcomes: invalid input (`ValueError`) and generic I/O failure
(`OSError`) are distinct outcomes but both exit with status 1. -/
theorem exit_code_counterexample :
    exitCode .valueError = exitCode .osError ∧
    CliOutcome.valueError ≠ CliOutcome.osError := by
  decide

/-- **C9 (amended).** The exit status distinguishes success (0), user
cancellation (130) and permission failure (13) from each other and from
every other outcome of the five, but invalid input and generic I/O
failure share exit code 1 and are not distinguished from each other. -/
theorem exit_code_discrimination_amended :
    (∀ a b : CliOutcome,
      a ∈ [CliOutcome.success, .keyboardInterrupt, .permissionError] →
      b ∈ [CliOutcome.success, .keyboardInterrupt, .valueError, .permissionError, .osError] →
      exitCode a = exitCode b → a = b) ∧
    exitCode .valueError = 1 ∧ exitCode .osError = 1 := by
  refine ⟨?_, rfl, rfl⟩
  intro a b ha hb h
  cases a <;> cases b <;> simp_all [exitCode]

/-- Witness for the amended C9 at a concrete pair of outcomes. -/
theorem exit_code_discrimination_amended_witness :
    CliOutcome.keyboardInterrupt = CliOutcome.keyboardInterrupt :=
  exit_code_discrimination_amended.1 .keyboardInterrupt .keyboardInterrupt
    (by decide) (by decide) rfl

end OrganizeCLI
